import Mathlib

/-!
Shallow embedding of the index-call iterator adapter from `src/lib.rs`.

The Rust code wraps a pair of callbacks — a count accessor (`fetch_item_num`)
and a per-index item accessor (`fetch_item`) — into a lazy, length-aware
iterator.  We model:

* `c_uint` values as `Nat` and `c_int` values as `Int` (no arithmetic in the
  source can overflow these: indexes are always bounded by a length that
  itself originated from a `c_uint`/non-negative `c_int`);
* the trait object `IndexCallable` by explicit function parameters
  (`fetchItemNum : Cxt → Nat` or `Cxt → Int`, and
  `fetchItem : Cxt → ItemNum → ItemNum → Item × Cxt`, the `× Cxt` reflecting the
  `&mut self` receiver of `fetch_item`);
* panics (the `assert!`/`assert_eq!` macros) by the `panicked` constructor of
  `PanicOr`;
* iterator consumption by explicit state passing (`next` returns the optional
  item together with the updated iterator state).
-/

/-- Outcome of a Rust computation that may abort via a failed `assert!`:
either a normal result or a panic. -/
inductive PanicOr (α : Type u) where
  | panicked : PanicOr α
  | ok : α → PanicOr α
deriving DecidableEq, Repr

/-- `impl UnsignedIndexable for c_uint`: `fn from_index(self) -> usize { self as usize }`.
`c_uint` and `usize` are both modelled as `Nat`, so this is the identity. -/
def c_uint_from_index (n : Nat) : Nat := n

/-- `impl SignedIndexable for c_int`: `fn from_index(self) -> isize { self as isize }`.
`c_int` and `isize` are both modelled as `Int`, so this is the identity. -/
def c_int_from_index (n : Int) : Int := n

/-- `impl Indexable for c_uint`: `fn as_index(idx: usize) -> c_uint { idx as c_uint }`.
The cast cannot truncate because every index passed is below a length that came
from a `c_uint`. -/
def c_uint_as_index (idx : Nat) : Nat := idx

/-- `impl Indexable for c_int`: `fn as_index(idx: usize) -> c_int { idx as c_int }`.
The cast cannot overflow because every index passed is below a length that came
from a non-negative `c_int`. -/
def c_int_as_index (idx : Nat) : Int := (idx : Int)

/-- `struct IndexCallIterator<CxtT> { cxt: CxtT, length: usize, index: usize }`. -/
@[ext]
structure IndexCallIterator (Cxt : Type u) where
  cxt : Cxt
  length : Nat
  index : Nat
deriving DecidableEq, Repr

/-- `IndexCallIterator::new` (unsigned path): captures
`length = cxt.fetch_item_num().from_index()` and starts the cursor at 0.
The count callback (`fetch_item_num`, which takes `&self`) is passed as an
explicit function. -/
def IndexCallIterator.new (fetchItemNum : Cxt → Nat) (cxt : Cxt) :
    IndexCallIterator Cxt :=
  { cxt := cxt, length := c_uint_from_index (fetchItemNum cxt), index := 0 }

/-- `IndexCallIterator::new_check_positive` (signed path):
`let len = cxt.fetch_item_num().from_index(); if len >= 0 { Some(..) } else
{ assert_eq!(len, -1); None }`.  The failed assertion is `PanicOr.panicked`. -/
def IndexCallIterator.newCheckPositive (fetchItemNum : Cxt → Int) (cxt : Cxt) :
    PanicOr (Option (IndexCallIterator Cxt)) :=
  let len : Int := c_int_from_index (fetchItemNum cxt)
  if 0 ≤ len then
    PanicOr.ok (some { cxt := cxt, length := len.toNat, index := 0 })
  else if len = -1 then
    PanicOr.ok none
  else
    PanicOr.panicked

/-- `Iterator::next for IndexCallIterator`:
if `index < length`, advance the cursor and return
`fetch_item(as_index(idx), as_index(length))` (on the context held in the
iterator, which `fetch_item` receives by `&mut self`); otherwise return `None`
and leave the state untouched.  `asIndex` is the `Indexable::as_index`
instance for `ItemNum`, and `fetchItem` the `IndexCallable::fetch_item`
implementation. -/
def IndexCallIterator.next (asIndex : Nat → ItemNum)
    (fetchItem : Cxt → ItemNum → ItemNum → Item × Cxt) (it : IndexCallIterator Cxt) :
    Option Item × IndexCallIterator Cxt :=
  if it.index < it.length then
    let idx := it.index
    let res := fetchItem it.cxt (asIndex idx) (asIndex it.length)
    (some res.1, { cxt := res.2, length := it.length, index := it.index + 1 })
  else
    (none, it)

/-- `ExactSizeIterator::len for IndexCallIterator`:
`assert!(self.index <= self.length); self.length - self.index`.
The failed assertion is `PanicOr.panicked`. -/
def IndexCallIterator.len (it : IndexCallIterator Cxt) : PanicOr Nat :=
  if it.index ≤ it.length then PanicOr.ok (it.length - it.index)
  else PanicOr.panicked

/-- Driving the iterator: call `next` repeatedly (at most `fuel` times),
collecting the produced items in order.  `fuel ≥` the remaining length gives
full consumption. -/
def IndexCallIterator.collect (asIndex : Nat → ItemNum)
    (fetchItem : Cxt → ItemNum → ItemNum → Item × Cxt) (fuel : Nat)
    (it : IndexCallIterator Cxt) : List Item :=
  match fuel with
  | 0 => []
  | fuel + 1 =>
    match IndexCallIterator.next asIndex fetchItem it with
    | (none, _) => []
    | (some x, it2) => x :: IndexCallIterator.collect asIndex fetchItem fuel it2

/-- Driving the iterator: call `next` exactly `k` times, keeping only the
final state (the items are discarded). -/
def IndexCallIterator.advance (asIndex : Nat → ItemNum)
    (fetchItem : Cxt → ItemNum → ItemNum → Item × Cxt) :
    Nat → IndexCallIterator Cxt → IndexCallIterator Cxt
  | 0, it => it
  | k + 1, it =>
    IndexCallIterator.advance asIndex fetchItem k
      (IndexCallIterator.next asIndex fetchItem it).2

/-- A pure `fetch_item` implementation: returns `f idx num` and leaves the
context untouched.  This is how every implementation in the repository (and
the spec's "item function `f`") behaves. -/
def pureFetch (f : ItemNum → ItemNum → Item) : Cxt → ItemNum → ItemNum → Item × Cxt :=
  fun c i m => (f i m, c)

/-- An instrumented `fetch_item` implementation whose context is the list of
all `(idx, num)` argument pairs it has ever been called with (most recent
first).  Used to prove that the adapter only calls the item callback with
arguments satisfying its documented contract. -/
def logFetch (item : Nat → Nat → Item) :
    List (Nat × Nat) → Nat → Nat → Item × List (Nat × Nat) :=
  fun log i m => (item i m, (i, m) :: log)

/-- The state of the boxed iterator `Box::new((0..stop).map(f))` over `c_uint`
returned by `new_index_call_iterator`: a `Range<c_uint>` together with the
mapped function. -/
structure RangeMapU (T : Type u) where
  start : Nat
  stop : Nat
  f : Nat → T

/-- `Iterator::next` for `(0..stop).map(f)` over `c_uint`: yield `f start` and
bump `start` while `start < stop`. -/
def RangeMapU.next (it : RangeMapU T) : Option T × RangeMapU T :=
  if it.start < it.stop then
    (some (it.f it.start), { it with start := it.start + 1 })
  else
    (none, it)

/-- `ExactSizeIterator::len` for `(0..stop).map(f)` over `c_uint`:
`stop - start`, clamped at 0 (which `Nat` subtraction does). -/
def RangeMapU.len (it : RangeMapU T) : Nat := it.stop - it.start

/-- Driving the boxed unsigned iterator, as `IndexCallIterator.collect`. -/
def RangeMapU.collect (fuel : Nat) (it : RangeMapU T) : List T :=
  match fuel with
  | 0 => []
  | fuel + 1 =>
    match RangeMapU.next it with
    | (none, _) => []
    | (some x, it2) => x :: RangeMapU.collect fuel it2

/-- `new_index_call_iterator`: `Box::new((0..f_len()).map(f))`.  The count
callback takes no argument, the item callback takes only the index. -/
def new_index_call_iterator (fLen : Unit → Nat) (f : Nat → T) : RangeMapU T :=
  { start := 0, stop := fLen (), f := f }

/-- The state of the boxed iterator `Box::new((0..stop).map(f))` over `c_int`
returned (when the count is non-negative) by
`new_index_call_iterator_check_positive`. -/
structure RangeMapS (T : Type u) where
  start : Int
  stop : Int
  f : Int → T

/-- `Iterator::next` for `(0..stop).map(f)` over `c_int`. -/
def RangeMapS.next (it : RangeMapS T) : Option T × RangeMapS T :=
  if it.start < it.stop then
    (some (it.f it.start), { it with start := it.start + 1 })
  else
    (none, it)

/-- `ExactSizeIterator::len` for `(0..stop).map(f)` over `c_int`:
`stop - start` when the range is non-empty, otherwise 0 (`Int.toNat` clamps). -/
def RangeMapS.len (it : RangeMapS T) : Nat := (it.stop - it.start).toNat

/-- Driving the boxed signed iterator. -/
def RangeMapS.collect (fuel : Nat) (it : RangeMapS T) : List T :=
  match fuel with
  | 0 => []
  | fuel + 1 =>
    match RangeMapS.next it with
    | (none, _) => []
    | (some x, it2) => x :: RangeMapS.collect fuel it2

/-- `new_index_call_iterator_check_positive`:
`let len = f_len(); if len >= 0 { Some(Box::new((0..len).map(f))) } else
{ assert_eq!(len, -1); None }`. -/
def new_index_call_iterator_check_positive (fLen : Unit → Int) (f : Int → T) :
    PanicOr (Option (RangeMapS T)) :=
  let len : Int := fLen ()
  if 0 ≤ len then
    PanicOr.ok (some { start := 0, stop := len, f := f })
  else if len = -1 then
    PanicOr.ok none
  else
    PanicOr.panicked

/-- `cipher_iter`: `data.iter().map(move |&p| p ^ key)`, fully collected.
Bytes are modelled as `Nat` below 256; xor of two such values never exceeds
8 bits, so no reduction modulo 256 is needed. -/
def cipher_iter (data : List Nat) (key : Nat) : List Nat :=
  data.map (fun p => p ^^^ key)

/-! ### Basic lemmas about `next`, `advance` and `collect` -/

theorem next_snd_of_lt (asIndex : Nat → ItemNum)
    (fetchItem : Cxt → ItemNum → ItemNum → Item × Cxt) (it : IndexCallIterator Cxt)
    (h : it.index < it.length) :
    (IndexCallIterator.next asIndex fetchItem it).2 =
      ⟨(fetchItem it.cxt (asIndex it.index) (asIndex it.length)).2,
       it.length, it.index + 1⟩ := by
  simp [IndexCallIterator.next, h]

theorem next_of_lt (asIndex : Nat → ItemNum)
    (fetchItem : Cxt → ItemNum → ItemNum → Item × Cxt) (it : IndexCallIterator Cxt)
    (h : it.index < it.length) :
    IndexCallIterator.next asIndex fetchItem it =
      (some (fetchItem it.cxt (asIndex it.index) (asIndex it.length)).1,
       ⟨(fetchItem it.cxt (asIndex it.index) (asIndex it.length)).2,
        it.length, it.index + 1⟩) := by
  simp [IndexCallIterator.next, h]

theorem next_of_not_lt (asIndex : Nat → ItemNum)
    (fetchItem : Cxt → ItemNum → ItemNum → Item × Cxt) (it : IndexCallIterator Cxt)
    (h : ¬ it.index < it.length) :
    IndexCallIterator.next asIndex fetchItem it = (none, it) := by
  simp [IndexCallIterator.next, h]

theorem length_advance (asIndex : Nat → ItemNum)
    (fetchItem : Cxt → ItemNum → ItemNum → Item × Cxt) :
    ∀ (k : Nat) (it : IndexCallIterator Cxt),
      (IndexCallIterator.advance asIndex fetchItem k it).length = it.length := by
  intro k
  induction k with
  | zero => intro it; rfl
  | succ k ih =>
    intro it
    rw [IndexCallIterator.advance, ih]
    by_cases h : it.index < it.length
    · rw [next_snd_of_lt asIndex fetchItem it h]
    · rw [next_of_not_lt asIndex fetchItem it h]

theorem index_advance (asIndex : Nat → ItemNum)
    (fetchItem : Cxt → ItemNum → ItemNum → Item × Cxt) :
    ∀ (k : Nat) (it : IndexCallIterator Cxt), it.index ≤ it.length →
      (IndexCallIterator.advance asIndex fetchItem k it).index =
        min (it.index + k) it.length := by
  intro k
  induction k with
  | zero =>
    intro it h
    simp only [IndexCallIterator.advance]
    omega
  | succ k ih =>
    intro it h
    rw [IndexCallIterator.advance]
    by_cases hlt : it.index < it.length
    · rw [next_snd_of_lt asIndex fetchItem it hlt,
          ih _ (by simpa using hlt)]
      simp only
      omega
    · rw [next_of_not_lt asIndex fetchItem it hlt, ih it h]
      omega

theorem cxt_advance_pureFetch (asIndex : Nat → ItemNum) (f : ItemNum → ItemNum → Item) :
    ∀ (k : Nat) (it : IndexCallIterator Cxt),
      (IndexCallIterator.advance asIndex (pureFetch f) k it).cxt = it.cxt := by
  intro k
  induction k with
  | zero => intro it; rfl
  | succ k ih =>
    intro it
    rw [IndexCallIterator.advance, ih]
    by_cases h : it.index < it.length
    · rw [next_snd_of_lt asIndex (pureFetch f) it h]
      simp [pureFetch]
    · rw [next_of_not_lt asIndex (pureFetch f) it h]

theorem advance_of_exhausted (asIndex : Nat → ItemNum)
    (fetchItem : Cxt → ItemNum → ItemNum → Item × Cxt) :
    ∀ (k : Nat) (it : IndexCallIterator Cxt), ¬ it.index < it.length →
      IndexCallIterator.advance asIndex fetchItem k it = it := by
  intro k
  induction k with
  | zero => intro it _; rfl
  | succ k ih =>
    intro it h
    rw [IndexCallIterator.advance, next_of_not_lt asIndex fetchItem it h]
    exact ih it h

theorem collect_length (asIndex : Nat → ItemNum)
    (fetchItem : Cxt → ItemNum → ItemNum → Item × Cxt) :
    ∀ (fuel : Nat) (it : IndexCallIterator Cxt),
      it.length - it.index ≤ fuel →
      (IndexCallIterator.collect asIndex fetchItem fuel it).length =
        it.length - it.index := by
  intro fuel
  induction fuel with
  | zero =>
    intro it h
    simp only [IndexCallIterator.collect, List.length_nil]
    omega
  | succ fuel ih =>
    intro it h
    by_cases hlt : it.index < it.length
    · rw [IndexCallIterator.collect, next_of_lt asIndex fetchItem it hlt]
      simp only [List.length_cons]
      rw [ih _ (by simp; omega)]
      simp only
      omega
    · rw [IndexCallIterator.collect, next_of_not_lt asIndex fetchItem it hlt]
      simp only [List.length_nil]
      omega

theorem collect_pureFetch (asIndex : Nat → ItemNum) (f : ItemNum → ItemNum → Item) :
    ∀ (fuel : Nat) (it : IndexCallIterator Cxt),
      it.length - it.index ≤ fuel →
      IndexCallIterator.collect asIndex (pureFetch f) fuel it =
        (List.range' it.index (it.length - it.index)).map
          (fun j => f (asIndex j) (asIndex it.length)) := by
  intro fuel
  induction fuel with
  | zero =>
    intro it h
    have h0 : it.length - it.index = 0 := by omega
    simp [IndexCallIterator.collect, h0]
  | succ fuel ih =>
    rintro ⟨c, n, i⟩ h
    dsimp only at h ⊢
    by_cases hlt : i < n
    · rw [IndexCallIterator.collect,
          next_of_lt asIndex (pureFetch f) ⟨c, n, i⟩ hlt]
      dsimp only
      have hm : n - i = (n - (i + 1)) + 1 := by omega
      rw [hm, List.range'_succ]
      have htail := ih ⟨c, n, i + 1⟩ (by dsimp only; omega)
      dsimp only at htail
      rw [List.map_cons]
      simp only [pureFetch] at htail ⊢
      rw [htail]
    · rw [IndexCallIterator.collect,
          next_of_not_lt asIndex (pureFetch f) ⟨c, n, i⟩ hlt]
      have h0 : n - i = 0 := by omega
      simp [h0]

theorem RangeMapU_collect_eq :
    ∀ (fuel : Nat) (it : RangeMapU T), it.stop - it.start ≤ fuel →
      RangeMapU.collect fuel it =
        (List.range' it.start (it.stop - it.start)).map it.f := by
  intro fuel
  induction fuel with
  | zero =>
    intro it h
    have h0 : it.stop - it.start = 0 := by omega
    simp [RangeMapU.collect, h0]
  | succ fuel ih =>
    rintro ⟨s, e, f⟩ h
    dsimp only at h ⊢
    by_cases hlt : s < e
    · rw [RangeMapU.collect]
      have hnext : RangeMapU.next ⟨s, e, f⟩ =
          (some (f s), ⟨s + 1, e, f⟩) := by
        simp [RangeMapU.next, hlt]
      rw [hnext]
      dsimp only
      have hm : e - s = (e - (s + 1)) + 1 := by omega
      rw [hm, List.range'_succ]
      have htail := ih ⟨s + 1, e, f⟩ (by dsimp only; omega)
      dsimp only at htail
      rw [List.map_cons, htail]
    · rw [RangeMapU.collect]
      have hnext : RangeMapU.next ⟨s, e, f⟩ = (none, ⟨s, e, f⟩) := by
        simp [RangeMapU.next, hlt]
      rw [hnext]
      have h0 : e - s = 0 := by omega
      simp [h0]

theorem RangeMapS_collect_eq :
    ∀ (fuel : Nat) (it : RangeMapS T), (it.stop - it.start).toNat ≤ fuel →
      RangeMapS.collect fuel it =
        (List.range (it.stop - it.start).toNat).map
          (fun j : Nat => it.f (it.start + (j : Int))) := by
  intro fuel
  induction fuel with
  | zero =>
    intro it h
    have h0 : (it.stop - it.start).toNat = 0 := by omega
    simp [RangeMapS.collect, h0]
  | succ fuel ih =>
    rintro ⟨s, e, f⟩ h
    dsimp only at h ⊢
    by_cases hlt : s < e
    · rw [RangeMapS.collect]
      have hnext : RangeMapS.next ⟨s, e, f⟩ =
          (some (f s), ⟨s + 1, e, f⟩) := by
        simp [RangeMapS.next, hlt]
      rw [hnext]
      dsimp only
      have hm : (e - s).toNat = (e - (s + 1)).toNat + 1 := by omega
      rw [hm, List.range_succ_eq_map]
      have htail := ih ⟨s + 1, e, f⟩ (by dsimp only; omega)
      dsimp only at htail
      rw [List.map_cons, htail, List.map_map]
      refine congrArg₂ List.cons (by simp) ?_
      refine List.map_congr_left fun j hj => ?_
      show f (s + 1 + (j : Int)) = f (s + (Nat.succ j : Int))
      congr 1
      push_cast
      ring
    · rw [RangeMapS.collect]
      have hnext : RangeMapS.next ⟨s, e, f⟩ = (none, ⟨s, e, f⟩) := by
        simp [RangeMapS.next, hlt]
      rw [hnext]
      have h0 : (e - s).toNat = 0 := by omega
      simp [h0]

theorem advance_logFetch_inv (item : Nat → Nat → Item) (n : Nat) :
    ∀ (k : Nat) (it : IndexCallIterator (List (Nat × Nat))),
      it.length = n → it.index ≤ n →
      (∀ p ∈ it.cxt, p.1 < p.2 ∧ p.2 = n) →
      ∀ p ∈ (IndexCallIterator.advance c_uint_as_index (logFetch item) k
              it).cxt,
        p.1 < p.2 ∧ p.2 = n := by
  intro k
  induction k with
  | zero =>
    intro it hn hi hlog
    exact hlog
  | succ k ih =>
    rintro ⟨log, len, i⟩ hn hi hlog
    dsimp only at hn hi hlog
    rw [IndexCallIterator.advance]
    by_cases hlt : i < len
    · rw [next_snd_of_lt c_uint_as_index (logFetch item) ⟨log, len, i⟩ hlt]
      refine ih _ hn (by dsimp only; omega) ?_
      dsimp only [logFetch, c_uint_as_index]
      intro p hp
      rcases List.mem_cons.mp hp with hp | hp
      · subst hp
        exact ⟨hlt, hn⟩
      · exact hlog p hp
    · rw [next_of_not_lt c_uint_as_index (logFetch item) ⟨log, len, i⟩ hlt]
      exact ih _ hn hi hlog

/-! ### The claims -/

/-- Claim C1: for every unsigned count `n` and item function `f`, the
sequence built by unconditional construction (`IndexCallIterator::new`, or
the boxed helper `new_index_call_iterator`), fully consumed, produces
exactly `f 0 n, f 1 n, ..., f (n-1) n` in that order, and the
remaining-count queried before consuming any item equals `n`. -/
theorem claim_C1 (n : Nat) (f : Nat → Nat → Item) (cxt : Cxt) :
    IndexCallIterator.collect c_uint_as_index (pureFetch f) n
        (IndexCallIterator.new (fun _ => n) cxt) =
      (List.range n).map (fun i => f i n)
    ∧ (IndexCallIterator.new (fun _ => n) cxt).len = PanicOr.ok n
    ∧ RangeMapU.collect n
        (new_index_call_iterator (fun _ => n) (fun i => f i n)) =
      (List.range n).map (fun i => f i n)
    ∧ (new_index_call_iterator (fun _ => n) (fun i => f i n)).len = n := by
  refine ⟨?_, ?_, ?_, ?_⟩
  · have hle : (IndexCallIterator.new (fun _ => n) cxt).length -
        (IndexCallIterator.new (fun _ => n) cxt).index ≤ n := by
      simp [IndexCallIterator.new, c_uint_from_index]
    have h := collect_pureFetch c_uint_as_index f n
      (IndexCallIterator.new (fun _ => n) cxt) hle
    simpa [IndexCallIterator.new, c_uint_from_index, c_uint_as_index,
      List.range_eq_range'] using h
  · simp [IndexCallIterator.len, IndexCallIterator.new, c_uint_from_index]
  · have hle : (new_index_call_iterator (fun _ => n) (fun i => f i n)).stop -
        (new_index_call_iterator (fun _ => n) (fun i => f i n)).start ≤ n := by
      simp [new_index_call_iterator]
    have h := RangeMapU_collect_eq n
      (new_index_call_iterator (fun _ => n) (fun i => f i n)) hle
    simpa [new_index_call_iterator, List.range_eq_range'] using h
  · simp [RangeMapU.len, new_index_call_iterator]

/-- Claim C3: after exactly `k` items (`k ≤ n`) have been produced from a
sequence constructed with count `n`, the remaining-count operation (`len`)
returns exactly `n - k`, which equals the number of items the sequence will
still produce (regardless of how much more fuel is offered).  This holds for
an arbitrary, even context-mutating, item callback. -/
theorem claim_C3 (n k : Nat) (hk : k ≤ n)
    (fetchItem : Cxt → Nat → Nat → Item × Cxt) (cxt : Cxt) (extra : Nat) :
    (IndexCallIterator.advance c_uint_as_index fetchItem k
        (IndexCallIterator.new (fun _ => n) cxt)).len = PanicOr.ok (n - k)
    ∧ (IndexCallIterator.collect c_uint_as_index fetchItem ((n - k) + extra)
        (IndexCallIterator.advance c_uint_as_index fetchItem k
          (IndexCallIterator.new (fun _ => n) cxt))).length = n - k := by
  have hlen := length_advance c_uint_as_index fetchItem k
    (IndexCallIterator.new (fun _ => n) cxt)
  have hidx := index_advance c_uint_as_index fetchItem k
    (IndexCallIterator.new (fun _ => n) cxt)
    (by simp [IndexCallIterator.new])
  rw [show (IndexCallIterator.new (fun _ => n) cxt).length =
      n from rfl] at hlen
  rw [show (IndexCallIterator.new (fun _ => n) cxt).index = 0 from rfl,
      show (IndexCallIterator.new (fun _ => n) cxt).length = n from rfl] at hidx
  constructor
  · rw [IndexCallIterator.len, hlen, hidx, if_pos (by omega)]
    congr 1
    omega
  · have hcl := collect_length c_uint_as_index fetchItem ((n - k) + extra)
      (IndexCallIterator.advance c_uint_as_index fetchItem k
        (IndexCallIterator.new (fun _ => n) cxt)) (by rw [hlen, hidx]; omega)
    rw [hcl, hlen, hidx]
    omega

/-- Claim C3, witnessed at `n = 3`, `k = 2` with the identity item callback. -/
theorem claim_C3_witness :
    2 ≤ 3
    ∧ ((IndexCallIterator.advance c_uint_as_index
          (fun (c : Unit) (i _ : Nat) => (i, c)) 2
          (IndexCallIterator.new (fun _ => 3) ())).len = PanicOr.ok (3 - 2)
       ∧ (IndexCallIterator.collect c_uint_as_index
            (fun (c : Unit) (i _ : Nat) => (i, c)) ((3 - 2) + 1)
            (IndexCallIterator.advance c_uint_as_index
              (fun (c : Unit) (i _ : Nat) => (i, c)) 2
              (IndexCallIterator.new (fun _ => 3) ()))).length = 3 - 2) :=
  ⟨by decide, claim_C3 3 2 (by decide) (fun c i _ => (i, c)) () 1⟩

/-- Claim C4: when guarded construction is given the sentinel count `-1`,
it yields an absent result, and the item callback is never invoked: both
results below are `PanicOr.ok none` for *every* item callback (the trait
version does not even receive one), so no callback can have contributed. -/
theorem claim_C4 (cxt : Cxt) (f : Int → T) :
    IndexCallIterator.newCheckPositive (fun _ => (-1 : Int)) cxt =
        PanicOr.ok none
    ∧ new_index_call_iterator_check_positive (fun _ => (-1 : Int)) f =
        PanicOr.ok none := by
  constructor
  · norm_num [IndexCallIterator.newCheckPositive, c_int_from_index]
  · norm_num [new_index_call_iterator_check_positive]

/-- Claim C5: once the cursor equals the count, `next` signals
end-of-sequence, invokes no callback (the result is the same for every
`fetchItem`), and leaves the state unchanged; hence any number of repeated
calls after exhaustion is a no-op. -/
theorem claim_C5 (asIndex : Nat → ItemNum)
    (fetchItem : Cxt → ItemNum → ItemNum → Item × Cxt)
    (it : IndexCallIterator Cxt) (h : it.index = it.length) :
    IndexCallIterator.next asIndex fetchItem it = (none, it)
    ∧ ∀ j, IndexCallIterator.advance asIndex fetchItem j it = it := by
  have hnl : ¬ it.index < it.length := by omega
  exact ⟨next_of_not_lt asIndex fetchItem it hnl,
    fun j => advance_of_exhausted asIndex fetchItem j it hnl⟩

/-- Claim C5, witnessed on an exhausted iterator with count 2. -/
theorem claim_C5_witness :
    (⟨(), 2, 2⟩ : IndexCallIterator Unit).index =
        (⟨(), 2, 2⟩ : IndexCallIterator Unit).length
    ∧ IndexCallIterator.next c_uint_as_index
        (fun (c : Unit) (i _ : Nat) => (i, c)) ⟨(), 2, 2⟩ = (none, ⟨(), 2, 2⟩)
    ∧ IndexCallIterator.advance c_uint_as_index
        (fun (c : Unit) (i _ : Nat) => (i, c)) 3 ⟨(), 2, 2⟩ = ⟨(), 2, 2⟩ :=
  ⟨rfl, (claim_C5 c_uint_as_index (fun c i _ => (i, c)) ⟨(), 2, 2⟩ rfl).1,
    (claim_C5 c_uint_as_index (fun c i _ => (i, c)) ⟨(), 2, 2⟩ rfl).2 3⟩

/-- Claim C2: guarded construction has a three-way outcome determined by the
signed count `n`: for `n ≥ 0` it returns a present sequence behaviorally
identical to unconditional construction with count `n` (the trait version
returns literally the state `IndexCallIterator.new` builds; the boxed version
returns a range-map whose items and length match the boxed unsigned helper);
for `n = -1` it returns absent; for `n < -1` it panics. -/
theorem claim_C2 (n : Int) (cxt : Cxt) (f : Int → T) :
    (0 ≤ n →
      IndexCallIterator.newCheckPositive (fun _ => n) cxt =
          PanicOr.ok (some (IndexCallIterator.new (fun _ => n.toNat) cxt))
        ∧ new_index_call_iterator_check_positive (fun _ => n) f =
          PanicOr.ok (some ⟨0, n, f⟩)
        ∧ RangeMapS.collect n.toNat ⟨0, n, f⟩ =
          RangeMapU.collect n.toNat
            (new_index_call_iterator (fun _ => n.toNat) (fun i => f (i : Int)))
        ∧ RangeMapS.len ⟨0, n, f⟩ =
          RangeMapU.len
            (new_index_call_iterator (fun _ => n.toNat) (fun i => f (i : Int))))
    ∧ (n = -1 →
        IndexCallIterator.newCheckPositive (fun _ => n) cxt = PanicOr.ok none
        ∧ new_index_call_iterator_check_positive (fun _ => n) f =
          PanicOr.ok none)
    ∧ (n < -1 →
        IndexCallIterator.newCheckPositive (fun _ => n) cxt = PanicOr.panicked
        ∧ new_index_call_iterator_check_positive (fun _ => n) f =
          PanicOr.panicked) := by
  refine ⟨fun hn => ⟨?_, ?_, ?_, ?_⟩, fun hn => ⟨?_, ?_⟩, fun hn => ⟨?_, ?_⟩⟩
  · simp [IndexCallIterator.newCheckPositive, c_int_from_index, hn,
      IndexCallIterator.new, c_uint_from_index]
  · simp [new_index_call_iterator_check_positive, hn]
  · have hS := RangeMapS_collect_eq n.toNat (⟨0, n, f⟩ : RangeMapS T)
      (by dsimp only; omega)
    have hU := RangeMapU_collect_eq n.toNat
      (new_index_call_iterator (fun _ => n.toNat) (fun i => f (i : Int)))
      (by simp [new_index_call_iterator])
    rw [hS, hU]
    simp [new_index_call_iterator, List.range_eq_range']
  · simp [RangeMapS.len, RangeMapU.len, new_index_call_iterator]
  · simp [IndexCallIterator.newCheckPositive, c_int_from_index, hn]
  · simp [new_index_call_iterator_check_positive, hn]
  · have h1 : ¬ (0 ≤ n) := by omega
    have h2 : n ≠ -1 := by omega
    simp [IndexCallIterator.newCheckPositive, c_int_from_index, h1, h2]
  · have h1 : ¬ (0 ≤ n) := by omega
    have h2 : n ≠ -1 := by omega
    simp [new_index_call_iterator_check_positive, h1, h2]

/-- Claim C2, witnessed on the contract-violation branch at `n = -5`. -/
theorem claim_C2_witness :
    (-5 : Int) < -1
    ∧ (IndexCallIterator.newCheckPositive (fun _ => (-5 : Int)) () =
        PanicOr.panicked
       ∧ new_index_call_iterator_check_positive (fun _ => (-5 : Int))
          (fun i => (i : Int)) = PanicOr.panicked) :=
  ⟨by norm_num, (claim_C2 (-5) () (fun i => (i : Int))).2.2 (by norm_num)⟩

/-- Claim C6: starting from any constructed sequence and after any number
`k` of produce-next calls, the invariant `index ≤ length` holds (the cursor
never exceeds the count; Rust's `usize` keeps it non-negative, which `Nat`
models), and the sequence is exhausted (`next` yields no item) exactly when
`index = length`. -/
theorem claim_C6 (asIndex : Nat → ItemNum)
    (fetchItem : Cxt → ItemNum → ItemNum → Item × Cxt)
    (fetchItemNum : Cxt → Nat) (cxt : Cxt) (k : Nat) :
    (IndexCallIterator.advance asIndex fetchItem k
        (IndexCallIterator.new fetchItemNum cxt)).index ≤
      (IndexCallIterator.advance asIndex fetchItem k
        (IndexCallIterator.new fetchItemNum cxt)).length
    ∧ ((IndexCallIterator.next asIndex fetchItem
          (IndexCallIterator.advance asIndex fetchItem k
            (IndexCallIterator.new fetchItemNum cxt))).1 = none
        ↔ (IndexCallIterator.advance asIndex fetchItem k
            (IndexCallIterator.new fetchItemNum cxt)).index =
          (IndexCallIterator.advance asIndex fetchItem k
            (IndexCallIterator.new fetchItemNum cxt)).length) := by
  have hlen := length_advance asIndex fetchItem k
    (IndexCallIterator.new fetchItemNum cxt)
  have hidx := index_advance asIndex fetchItem k
    (IndexCallIterator.new fetchItemNum cxt) (by simp [IndexCallIterator.new])
  have hinv : (IndexCallIterator.advance asIndex fetchItem k
      (IndexCallIterator.new fetchItemNum cxt)).index ≤
      (IndexCallIterator.advance asIndex fetchItem k
        (IndexCallIterator.new fetchItemNum cxt)).length := by
    rw [hlen, hidx]
    simp [IndexCallIterator.new]
  refine ⟨hinv, ?_⟩
  by_cases hc : (IndexCallIterator.advance asIndex fetchItem k
      (IndexCallIterator.new fetchItemNum cxt)).index <
      (IndexCallIterator.advance asIndex fetchItem k
        (IndexCallIterator.new fetchItemNum cxt)).length
  · rw [next_of_lt asIndex fetchItem _ hc]
    simp
    omega
  · rw [next_of_not_lt asIndex fetchItem _ hc]
    simp
    omega

/-- Claim C7: whenever the adapter invokes the item callback, the index
argument satisfies `index < count` and the count argument equals the count
captured from the count callback at construction time.  Proved with an
instrumented callback whose context records every `(idx, num)` argument pair
it is ever called with: after any number `k` of produce-next calls on a
freshly constructed sequence with count `n`, every recorded pair satisfies
`idx < num` and `num = n` — so an assertion `idx < num` inside the item
callback never fires. -/
theorem claim_C7 (n k : Nat) (item : Nat → Nat → Item) :
    ∀ p ∈ (IndexCallIterator.advance c_uint_as_index (logFetch item) k
            (IndexCallIterator.new (fun _ => n)
              ([] : List (Nat × Nat)))).cxt,
      p.1 < p.2 ∧ p.2 = n := by
  apply advance_logFetch_inv item n k
  · rfl
  · simp [IndexCallIterator.new]
  · intro p hp
    simp [IndexCallIterator.new] at hp

/-- Claim C7, witnessed at `n = 2` after full consumption: the call log is
`[(1, 2), (0, 2)]` and the pair `(1, 2)` satisfies the contract. -/
theorem claim_C7_witness :
    ((1, 2) ∈ (IndexCallIterator.advance c_uint_as_index
        (logFetch (fun (i _ : Nat) => i)) 2
        (IndexCallIterator.new (fun _ => 2)
          ([] : List (Nat × Nat)))).cxt)
    ∧ ((1, 2).1 < (1, 2).2 ∧ (1, 2).2 = 2) :=
  ⟨by decide, claim_C7 2 2 (fun i _ => i) (1, 2) (by decide)⟩

/-- Claim C8: the count callback is queried exactly once, at construction:
(a) after any number of produce-next calls the stored count still equals the
value the count callback returned at construction time, for an arbitrary
(even context-mutating) item callback; (b) the sequence's entire behavior
depends on the count callback only through that one construction-time value
(`next` and `len` take no count callback at all, so two count callbacks
agreeing at construction give identical sequences); (c) with a pure item
callback, after `k` produce-next calls the state differs from the freshly
constructed one only in the cursor field (`min k n`); `len` is a pure
read that by its type changes nothing. -/
theorem claim_C8 (asIndex : Nat → ItemNum)
    (fetchItem : Cxt → ItemNum → ItemNum → Item × Cxt)
    (fnum₁ fnum₂ : Cxt → Nat) (f : ItemNum → ItemNum → Item) (cxt : Cxt)
    (k : Nat) :
    (IndexCallIterator.advance asIndex fetchItem k
        (IndexCallIterator.new fnum₁ cxt)).length =
      c_uint_from_index (fnum₁ cxt)
    ∧ (fnum₁ cxt = fnum₂ cxt →
        IndexCallIterator.advance asIndex fetchItem k
            (IndexCallIterator.new fnum₁ cxt) =
          IndexCallIterator.advance asIndex fetchItem k
            (IndexCallIterator.new fnum₂ cxt))
    ∧ IndexCallIterator.advance asIndex (pureFetch f) k
        (IndexCallIterator.new fnum₁ cxt) =
      ⟨cxt, fnum₁ cxt, min k (fnum₁ cxt)⟩ := by
  refine ⟨?_, ?_, ?_⟩
  · rw [length_advance asIndex fetchItem k (IndexCallIterator.new fnum₁ cxt)]
    rfl
  · intro h
    have : IndexCallIterator.new fnum₁ cxt = IndexCallIterator.new fnum₂ cxt := by
      simp [IndexCallIterator.new, c_uint_from_index, h]
    rw [this]
  · have hc := cxt_advance_pureFetch asIndex f k (IndexCallIterator.new fnum₁ cxt)
    have hl := length_advance asIndex (pureFetch f) k
      (IndexCallIterator.new fnum₁ cxt)
    have hi := index_advance asIndex (pureFetch f) k
      (IndexCallIterator.new fnum₁ cxt) (by simp [IndexCallIterator.new])
    refine IndexCallIterator.ext ?_ ?_ ?_
    · rw [hc]
      rfl
    · rw [hl]
      rfl
    · rw [hi]
      show min ((IndexCallIterator.new fnum₁ cxt).index + k) _ = _
      simp [IndexCallIterator.new, c_uint_from_index, Nat.min_comm]

/-- Claim C8, witnessed with two syntactically different count callbacks
that agree at construction time. -/
theorem claim_C8_witness :
    (fun (_ : Unit) => 2) () = (fun (_ : Unit) => 1 + 1) ()
    ∧ IndexCallIterator.advance c_uint_as_index
        (fun (c : Unit) (i _ : Nat) => (i, c)) 1
        (IndexCallIterator.new (fun _ => 2) ()) =
      IndexCallIterator.advance c_uint_as_index
        (fun (c : Unit) (i _ : Nat) => (i, c)) 1
        (IndexCallIterator.new (fun _ => 1 + 1) ()) :=
  ⟨by decide,
    (claim_C8 c_uint_as_index (fun c i _ => (i, c)) (fun _ => 2)
      (fun _ => 1 + 1) (fun i _ => i) () 1).2.1 (by decide)⟩

/-- Claim C9: the trait-based adapter and the boxed range-map helpers are
equivalent.  Unsigned: for any count `n` and item function `f`, the items and
the reported length of `IndexCallIterator.new` over a callable yielding count
`n` and items `f i n` equal those of `new_index_call_iterator` with a count
callback returning `n` and item callback `fun i => f i n`.  Signed: for every
`m ≥ -1`, `IndexCallIterator.newCheckPositive` and
`new_index_call_iterator_check_positive` agree on present/absent, and when
present (`m ≥ 0`) the two returned sequences produce the same items. -/
theorem claim_C9 (n : Nat) (f : Nat → Nat → T) (cxtU : CxtA)
    (m : Int) (hm : -1 ≤ m) (g : Int → Int → U) (cxtS : CxtB) :
    (IndexCallIterator.collect c_uint_as_index (pureFetch f) n
        (IndexCallIterator.new (fun _ => n) cxtU) =
      RangeMapU.collect n
        (new_index_call_iterator (fun _ => n) (fun i => f i n))
     ∧ (IndexCallIterator.new (fun _ => n) cxtU).len =
      PanicOr.ok
        ((new_index_call_iterator (fun _ => n) (fun i => f i n)).len))
    ∧ ((IndexCallIterator.newCheckPositive (fun _ => m) cxtS =
          PanicOr.ok none
        ↔ new_index_call_iterator_check_positive (fun _ => m)
            (fun i => g i m) = PanicOr.ok none)
       ∧ (0 ≤ m →
          IndexCallIterator.newCheckPositive (fun _ => m) cxtS =
            PanicOr.ok (some ⟨cxtS, m.toNat, 0⟩)
          ∧ new_index_call_iterator_check_positive (fun _ => m)
              (fun i => g i m) =
            PanicOr.ok (some ⟨0, m, fun i => g i m⟩)
          ∧ IndexCallIterator.collect c_int_as_index (pureFetch g) m.toNat
              ⟨cxtS, m.toNat, 0⟩ =
            RangeMapS.collect m.toNat ⟨0, m, fun i => g i m⟩)) := by
  refine ⟨⟨?_, ?_⟩, ?_, fun h0 => ⟨?_, ?_, ?_⟩⟩
  · have hT := collect_pureFetch c_uint_as_index f n
      (IndexCallIterator.new (fun _ => n) cxtU)
      (by simp [IndexCallIterator.new, c_uint_from_index])
    have hU := RangeMapU_collect_eq n
      (new_index_call_iterator (fun _ => n) (fun i => f i n))
      (by simp [new_index_call_iterator])
    rw [hT, hU]
    simp [IndexCallIterator.new, c_uint_from_index, c_uint_as_index,
      new_index_call_iterator]
  · simp [IndexCallIterator.len, IndexCallIterator.new, c_uint_from_index,
      RangeMapU.len, new_index_call_iterator]
  · by_cases h0 : 0 ≤ m
    · simp [IndexCallIterator.newCheckPositive, c_int_from_index, h0,
        new_index_call_iterator_check_positive]
    · have hm1 : m = -1 := by omega
      subst hm1
      norm_num [IndexCallIterator.newCheckPositive, c_int_from_index,
        new_index_call_iterator_check_positive]
  · simp [IndexCallIterator.newCheckPositive, c_int_from_index, h0]
  · simp [new_index_call_iterator_check_positive, h0]
  · have hT := collect_pureFetch c_int_as_index g m.toNat
      (⟨cxtS, m.toNat, 0⟩ : IndexCallIterator CxtB) (by dsimp only; omega)
    have hS := RangeMapS_collect_eq m.toNat
      (⟨0, m, fun i => g i m⟩ : RangeMapS U) (by dsimp only; omega)
    rw [hT, hS]
    dsimp only
    simp [c_int_as_index, Int.toNat_of_nonneg h0, List.range_eq_range']

/-- Claim C9, witnessed at unsigned count 2 and signed count 3. -/
theorem claim_C9_witness :
    (-1 : Int) ≤ 3
    ∧ ((IndexCallIterator.collect c_uint_as_index
          (pureFetch (fun (i _ : Nat) => i)) 2
          (IndexCallIterator.new (fun _ => 2) ()) =
        RangeMapU.collect 2
          (new_index_call_iterator (fun _ => 2)
            (fun i => (fun (i _ : Nat) => i) i 2))
       ∧ (IndexCallIterator.new (fun _ => 2) ()).len =
        PanicOr.ok
          ((new_index_call_iterator (fun _ => 2)
            (fun i => (fun (i _ : Nat) => i) i 2)).len))
      ∧ ((IndexCallIterator.newCheckPositive (fun _ => (3 : Int)) () =
            PanicOr.ok none
          ↔ new_index_call_iterator_check_positive (fun _ => (3 : Int))
              (fun i => (fun (i _ : Int) => i) i 3) = PanicOr.ok none)
         ∧ ((0 : Int) ≤ 3 →
            IndexCallIterator.newCheckPositive (fun _ => (3 : Int)) () =
              PanicOr.ok (some ⟨(), (3 : Int).toNat, 0⟩)
            ∧ new_index_call_iterator_check_positive (fun _ => (3 : Int))
                (fun i => (fun (i _ : Int) => i) i 3) =
              PanicOr.ok (some ⟨0, 3, fun i => (fun (i _ : Int) => i) i 3⟩)
            ∧ IndexCallIterator.collect c_int_as_index
                (pureFetch (fun (i _ : Int) => i)) (3 : Int).toNat
                ⟨(), (3 : Int).toNat, 0⟩ =
              RangeMapS.collect (3 : Int).toNat
                ⟨0, 3, fun i => (fun (i _ : Int) => i) i 3⟩))) :=
  ⟨by norm_num,
    claim_C9 2 (fun i _ => i) () 3 (by norm_num) (fun i _ => i) ()⟩

/-- Claim C10: the XOR cipher demo is an involution: for every byte vector
`data` (entries below 256) and key below 256, enciphering the enciphered
data with the same key returns the original data, byte-wise
`p ^^^ k ^^^ k = p`. -/
theorem claim_C10 (data : List Nat) (key : Nat)
    (hdata : ∀ b ∈ data, b < 256) (hkey : key < 256) :
    cipher_iter (cipher_iter data key) key = data := by
  simp only [cipher_iter, List.map_map]
  refine (List.map_congr_left fun a _ => ?_).trans (List.map_id data)
  simp only [Function.comp_apply, id_eq]
  exact Nat.xor_cancel_right key a

/-- Claim C10, witnessed on the repository's own test vector
`data = [1, 2, 3]`, `key = 10` (whose one-way image is `[11, 8, 9]`). -/
theorem claim_C10_witness :
    (∀ b ∈ [1, 2, 3], b < 256) ∧ 10 < 256
    ∧ cipher_iter (cipher_iter [1, 2, 3] 10) 10 = [1, 2, 3] :=
  ⟨by decide, by decide, claim_C10 [1, 2, 3] 10 (by decide) (by decide)⟩
